import Mathlib

/-!
Shallow embedding of the PromptDJ-MIDI client core (src/index.tsx and
src/utils.ts): the lookahead audio-chunk scheduler and its playback state
machine, the active-prompt / filtered-prompt logic, the throttled prompt
push, the weight-setting input paths and the 16-bit PCM codec.
Weights, clock values and samples are modelled as rationals.
-/

/-- Playback states of the engine (src/index.tsx, `type PlaybackState`). -/
inductive PlaybackState where
  | stopped
  | playing
  | loading
  | paused
deriving DecidableEq, Repr

/-- A prompt channel (src/index.tsx, `interface Prompt`). -/
structure Prompt where
  promptId : String
  text : String
  weight : ℚ
  cc : ℕ
  color : String
deriving DecidableEq, Repr

/-- `this.bufferTime` (src/index.tsx line 542): the fixed lookahead window, in seconds. -/
def bufferTime : ℚ := 2

/-- Result of one run of the incoming-audio-chunk handler
(src/index.tsx line 628, the `serverContent.audioChunks` branch of `onmessage`):
the playback state and lookahead clock (`nextStartTime`) after the handler,
the time the chunk was scheduled to start at (`none` when the chunk was
discarded), the delay in ms of a `setTimeout` armed by the sentinel branch
(`none` when no timer was armed), and whether the underrun branch fired. -/
structure ChunkOutcome where
  state : PlaybackState
  clock : ℚ
  scheduled : Option ℚ
  timer : Option ℚ
  underrun : Bool
deriving DecidableEq, Repr

/-- The incoming-audio-chunk handler (src/index.tsx line 628).  `st` and
`clock` are `this.playbackState` and `this.nextStartTime` on entry, `now` is
`this.audioContext.currentTime`, and `dur` is the decoded buffer's duration.
Mirrors the source: discard when paused/stopped; if `nextStartTime === 0`
set it to `now + bufferTime` and arm `setTimeout(..., bufferTime * 1000)`;
if `nextStartTime < now` (underrun) set state to `loading` and reset the
clock to `now + bufferTime`; then `source.start(nextStartTime)` and
`nextStartTime += duration`. -/
def handleChunk (st : PlaybackState) (clock now dur : ℚ) : ChunkOutcome :=
  if st = .paused ∨ st = .stopped then
    ⟨st, clock, none, none, false⟩
  else
    let clock1 := if clock = 0 then now + bufferTime else clock
    let timer : Option ℚ := if clock = 0 then some (bufferTime * 1000) else none
    let st2 := if clock1 < now then .loading else st
    let clock2 := if clock1 < now then now + bufferTime else clock1
    ⟨st2, clock2 + dur, some clock2, timer, decide (clock1 < now)⟩

/-- The body of the `setTimeout` armed in the sentinel branch
(src/index.tsx line 628): `if (this.playbackState === 'loading')
this.playbackState = 'playing';`. -/
def timerFire (st : PlaybackState) : PlaybackState :=
  if st = .loading then .playing else st

/-- Run the chunk handler over a sequence of chunks, each given as
`(arrival time, duration)`, collecting the outcome of every chunk. -/
def runChunks (st : PlaybackState) (clock : ℚ) : List (ℚ × ℚ) → List ChunkOutcome
  | [] => []
  | c :: rest =>
    let o := handleChunk st clock c.1 c.2
    o :: runChunks o.state o.clock rest

/-- The lookahead clock after processing a sequence of chunks. -/
def finalClock (st : PlaybackState) (clock : ℚ) : List (ℚ × ℚ) → ℚ
  | [] => clock
  | c :: rest =>
    let o := handleChunk st clock c.1 c.2
    finalClock o.state o.clock rest

/-- Spec-side description of the scheduled start times of a chunk sequence:
back-to-back from `t0`, each chunk starting where the previous one ended. -/
def startsSpec (t0 : ℚ) : List (ℚ × ℚ) → List ℚ
  | [] => []
  | c :: rest => t0 :: startsSpec (t0 + c.2) rest

/-- `PromptDjMidi.getPromptsToSend` (src/index.tsx line 637): the channels
whose text is not in the filtered set and whose weight is positive.  The
`filteredPrompts` set is modelled as a list of texts with membership. -/
def getPromptsToSend (prompts : List Prompt) (filtered : List String) : List Prompt :=
  prompts.filter (fun p => !(filtered.contains p.text) && decide (0 < p.weight))

/-- The update of `this.filteredPrompts` performed on the success path of
`PromptDjMidi.setSessionPrompts` (src/index.tsx line 643): keep only the
filtered texts that occur among the texts of the prompts just sent. -/
def setSessionPromptsFiltered (prompts : List Prompt) (filtered : List String) :
    List String :=
  let activeTexts := (getPromptsToSend prompts filtered).map (fun p => p.text)
  filtered.filter (fun fp => activeTexts.contains fp)

/-- Outcome of a `play()` call: the resulting playback state, the toast
message shown on an abort path, and whether `session.play()` was reached. -/
structure PlayResult where
  state : PlaybackState
  message : Option String
  startSent : Bool
deriving DecidableEq, Repr

/-- `PromptDjMidi.play` (src/index.tsx lines 664-671), as a function of the
entry state, connection health (`connOk` is `!this.connectionError`;
`reconnectOk` tells whether the reconnect attempt inside `play` succeeds),
and the channel store.  Mirrors the source: a failed reconnect aborts to
`stopped`; an empty active-prompt list aborts to `paused` with the
"Turn up a knob!" toast; otherwise the state becomes `loading` and
`session.play()` is called. -/
def play (st : PlaybackState) (connOk reconnectOk : Bool)
    (prompts : List Prompt) (filtered : List String) : PlayResult :=
  if !connOk && !reconnectOk then
    ⟨.stopped, some "Connection failed. Cannot play.", false⟩
  else if (getPromptsToSend prompts filtered).isEmpty then
    ⟨.paused, some "Turn up a knob!", false⟩
  else
    ⟨.loading, none, true⟩

/-- `throttle` (src/index.tsx lines 48-63) run over a timeline of call
events `(time, payload)`: the inner function executes exactly on the events
kept by this function.  The first argument after `delay` is `lastCall`
(`none` models the initial `-Infinity`); an event executes when
`now - lastCall >= delay`, and executing updates `lastCall`.  Dropped
events are discarded entirely (no trailing call). -/
def throttleRun {α : Type} (delay : ℚ) : Option ℚ → List (ℚ × α) → List (ℚ × α)
  | _, [] => []
  | none, e :: rest => e :: throttleRun delay (some e.1) rest
  | some l, e :: rest =>
    if delay ≤ e.1 - l then e :: throttleRun delay (some e.1) rest
    else throttleRun delay (some l) rest

/-- The clamp applied by every pointer/wheel weight path
(src/index.tsx lines 208, 217, 230): `Math.max(0, Math.min(2, x))`. -/
def clampWeight (x : ℚ) : ℚ := max 0 (min 2 x)

/-- `PromptController.handleCCMessage` weight update (src/index.tsx
line 376): `this.weight = (value / 127) * 2` for a CC value. -/
def midiWeight (value : ℕ) : ℚ := ((value : ℚ) / 127) * 2

/-- `WeightKnob.handlePointerMove` in knob mode (src/index.tsx lines
214-217): 0.01 weight per pixel of vertical drag, clamped. -/
def knobDragWeight (startVal delta : ℚ) : ℚ :=
  clampWeight (startVal + delta * (0.01 : ℚ))

/-- `WeightKnob.handlePointerMove` in slider mode (src/index.tsx lines
214-217): 0.02 weight per pixel of vertical drag, clamped. -/
def sliderDragWeight (startVal delta : ℚ) : ℚ :=
  clampWeight (startVal + delta * (0.02 : ℚ))

/-- The slider's jump-to-click position in `WeightKnob.handlePointerDown`
(src/index.tsx lines 205-208): `(1 - relativeY / height) * 2`, clamped. -/
def sliderJumpWeight (relativeY height : ℚ) : ℚ :=
  clampWeight ((1 - relativeY / height) * 2)

/-- `WeightKnob.handleWheel` (src/index.tsx lines 226-231):
`value + deltaY * -0.0025`, clamped. -/
def wheelWeight (current delta : ℚ) : ℚ :=
  clampWeight (current + delta * (-(0.0025 : ℚ)))

/-- The signed 16-bit value of two bytes in little-endian order, as read by
the `Int16Array` view in `decodeAudioData` (src/utils.ts line 50). -/
def int16le (lo hi : ℕ) : ℤ :=
  if lo + 256 * hi < 32768 then ((lo + 256 * hi : ℕ) : ℤ)
  else ((lo + 256 * hi : ℕ) : ℤ) - 65536

/-- The `Int16Array` view of the byte buffer (src/utils.ts line 50):
`byteLength / 2` little-endian 16-bit values. -/
def bytesToInt16 (data : List ℕ) : List ℤ :=
  (List.range (data.length / 2)).map
    (fun k => int16le (data.getD (2 * k) 0) (data.getD (2 * k + 1) 0))

/-- `dataFloat32` in `decodeAudioData` (src/utils.ts lines 52-55): each
16-bit sample divided by 32768. -/
def bytesToFloats (data : List ℕ) : List ℚ :=
  (bytesToInt16 data).map (fun v : ℤ => (v : ℚ) / 32768)

/-- The de-interleaved `channelData` for channel `i` in `decodeAudioData`
(src/utils.ts lines 59-65): `dataFloat32.length / numChannels` frames,
frame `j` being `dataFloat32[j * numChannels + i]`. -/
def channelSamples (data : List ℕ) (numChannels i : ℕ) : List ℚ :=
  (List.range ((bytesToFloats data).length / numChannels)).map
    (fun j => (bytesToFloats data).getD (j * numChannels + i) 0)

/-- `decodeAudioData` (src/utils.ts lines 39-72), multi-channel branch:
the per-channel sample lists written to the output buffer. -/
def decodeAudioData (data : List ℕ) (numChannels : ℕ) : List (List ℚ) :=
  (List.range numChannels).map (fun i => channelSamples data numChannels i)

/-- Truncation toward zero of a rational, as applied by JavaScript's
number-to-integer conversion. -/
def truncQ (x : ℚ) : ℤ := x.num.tdiv (x.den : ℤ)

/-- The 16-bit signed store performed by `int16[i] = data[i] * 32768` in
`createBlob` (src/utils.ts line 31): truncate toward zero, reduce modulo
2^16, and reinterpret values at or above 2^15 as negative. -/
def toInt16 (x : ℚ) : ℤ :=
  let t := truncQ (x * 32768)
  let w := t.emod 65536
  if w < 32768 then w else w - 65536

/-- The contents of the `Int16Array` built by `createBlob`
(src/utils.ts lines 27-37). -/
def createBlobInt16 (data : List ℚ) : List ℤ := data.map toInt16

/-- Concrete prompt with positive weight and text "A", used in counterexamples. -/
def promptA : Prompt := ⟨"prompt-0", "A", 1, 0, "#9900ff"⟩

/-- Concrete prompt with positive weight and text "B", used in counterexamples. -/
def promptB : Prompt := ⟨"prompt-1", "B", 1, 1, "#5200ff"⟩

/-- Concrete prompt with weight 0, used in counterexamples. -/
def zeroPrompt : Prompt := ⟨"prompt-0", "Bossa Nova", 0, 0, "#9900ff"⟩

theorem mem_getPromptsToSend (prompts : List Prompt) (filtered : List String)
    (p : Prompt) :
    p ∈ getPromptsToSend prompts filtered ↔
      p ∈ prompts ∧ 0 < p.weight ∧ p.text ∉ filtered := by
  simp only [getPromptsToSend, List.mem_filter, Bool.and_eq_true, Bool.not_eq_true',
    decide_eq_true_eq, List.elem_eq_mem, decide_eq_false_iff_not]
  tauto

/-- Claim C4: after any sequence of channel mutations, the active-prompt list
computed by `getPromptsToSend` is exactly the channels whose weight is strictly
positive and whose text is not in the filtered-prompt set. -/
theorem C4_active_prompt_list (prompts : List Prompt) (filtered : List String)
    (p : Prompt) :
    p ∈ getPromptsToSend prompts filtered ↔
      p ∈ prompts ∧ 0 < p.weight ∧ p.text ∉ filtered :=
  mem_getPromptsToSend prompts filtered p

theorem setSessionPromptsFiltered_eq_nil (prompts : List Prompt)
    (filtered : List String) :
    setSessionPromptsFiltered prompts filtered = [] := by
  unfold setSessionPromptsFiltered
  rw [List.filter_eq_nil_iff]
  intro fp hfp
  simp only [List.elem_eq_mem, decide_eq_true_eq, List.mem_map, not_exists, not_and]
  intro p hp hfp'
  rcases (mem_getPromptsToSend prompts filtered p).mp hp with ⟨-, -, hnot⟩
  exact hnot (hfp' ▸ hfp)

/-- Claim C5 (failing input): with channels "A" (weight 1, filtered) and "B"
(weight 1, unfiltered), a successful active-prompt push removes "A" from the
filtered set even though no text changed and no preset load or reset occurred:
the success path of `setSessionPrompts` empties the filtered set. -/
theorem C5_push_removes_filtered_entry :
    "A" ∈ ["A"] ∧ promptA.text = "A" ∧
    setSessionPromptsFiltered [promptA, promptB] ["A"] = [] ∧
    "A" ∉ setSessionPromptsFiltered [promptA, promptB] ["A"] := by
  refine ⟨by decide, rfl, ?_, ?_⟩
  · exact setSessionPromptsFiltered_eq_nil _ _
  · rw [setSessionPromptsFiltered_eq_nil]
    decide

/-- Claim C6 (counterexample): calling `play()` from `stopped` with a working
connection and no active channel leaves the state `paused`, not `stopped`. -/
theorem C6_counterexample :
    (play .stopped true true [zeroPrompt] []).state = .paused ∧
    PlaybackState.paused ≠ PlaybackState.stopped := by
  decide

/-- Claim C6 (amended): if `play()` is called with a working (or successfully
re-established) connection and no channel has weight > 0 with text outside the
filtered set, the call aborts with the user-visible "Turn up a knob!" message,
no start instruction is sent, and the playback state becomes `paused` whatever
the entry state was (paused stays paused, stopped becomes paused). -/
theorem C6_empty_guard_pauses (st : PlaybackState) (connOk reconnectOk : Bool)
    (hconn : connOk = true ∨ reconnectOk = true)
    (prompts : List Prompt) (filtered : List String)
    (hempty : getPromptsToSend prompts filtered = []) :
    play st connOk reconnectOk prompts filtered =
      ⟨.paused, some "Turn up a knob!", false⟩ := by
  unfold play
  rcases hconn with h | h <;> subst h <;> simp [hempty]

/-- Witness for C6 (amended): the guard at a concrete call from `paused`. -/
theorem C6_empty_guard_pauses_witness :
    play .paused true true [zeroPrompt] [] =
      ⟨.paused, some "Turn up a knob!", false⟩ :=
  C6_empty_guard_pauses .paused true true (Or.inl rfl) [zeroPrompt] [] (by decide)

theorem clampWeight_bounds (x : ℚ) : 0 ≤ clampWeight x ∧ clampWeight x ≤ 2 :=
  ⟨le_max_left 0 _, max_le (by norm_num) (min_le_left 2 x)⟩

/-- Claim C8: every weight-setting input path — a MIDI control-change with
value in [0,127] (weight = (value/127)·2), a knob drag (0.01/px), a slider
drag (0.02/px), the slider's jump-to-click position, and a wheel gesture
(-0.0025/unit) — yields a channel weight in [0,2]. -/
theorem C8_weight_paths_in_range (value : ℕ) (hv : value ≤ 127)
    (startVal delta relY height cur wdelta : ℚ) :
    (0 ≤ midiWeight value ∧ midiWeight value ≤ 2) ∧
    (0 ≤ knobDragWeight startVal delta ∧ knobDragWeight startVal delta ≤ 2) ∧
    (0 ≤ sliderDragWeight startVal delta ∧ sliderDragWeight startVal delta ≤ 2) ∧
    (0 ≤ sliderJumpWeight relY height ∧ sliderJumpWeight relY height ≤ 2) ∧
    (0 ≤ wheelWeight cur wdelta ∧ wheelWeight cur wdelta ≤ 2) := by
  refine ⟨⟨?_, ?_⟩, clampWeight_bounds _, clampWeight_bounds _,
    clampWeight_bounds _, clampWeight_bounds _⟩
  · unfold midiWeight
    positivity
  · unfold midiWeight
    have h : (value : ℚ) ≤ 127 := by exact_mod_cast hv
    rw [div_mul_eq_mul_div, div_le_iff₀ (by norm_num : (0:ℚ) < 127)]
    linarith

/-- Witness for C8: the bounds at the extreme CC value 127 and unit inputs. -/
theorem C8_weight_paths_in_range_witness :
    (0 ≤ midiWeight 127 ∧ midiWeight 127 ≤ 2) ∧
    (0 ≤ knobDragWeight 1 1 ∧ knobDragWeight 1 1 ≤ 2) ∧
    (0 ≤ sliderDragWeight 1 1 ∧ sliderDragWeight 1 1 ≤ 2) ∧
    (0 ≤ sliderJumpWeight 1 1 ∧ sliderJumpWeight 1 1 ≤ 2) ∧
    (0 ≤ wheelWeight 1 1 ∧ wheelWeight 1 1 ≤ 2) :=
  C8_weight_paths_in_range 127 (by decide) 1 1 1 1 1 1

theorem getD_map_of_lt {α β : Type} (f : α → β) (l : List α) (i : ℕ)
    (h : i < l.length) (d : β) (d' : α) :
    (l.map f).getD i d = f (l.getD i d') := by
  rw [List.getD_eq_getElem?_getD, List.getD_eq_getElem?_getD, List.getElem?_map,
    List.getElem?_eq_getElem h]
  rfl

/-- Claim C10: the float-to-PCM encoder multiplies by 32768 and stores into a
16-bit signed integer, truncating and wrapping modulo 2^16 with no clamping:
any buffer position holding the sample 1.0 is stored as -32768, the most
negative value, rather than saturating to 32767. -/
theorem C10_fullscale_wraps (data : List ℚ) (i : ℕ) (hi : i < data.length)
    (hone : data.getD i 0 = 1) :
    (createBlobInt16 data).getD i 0 = -32768 ∧ ((-32768 : ℤ) ≠ 32767) := by
  constructor
  · have h1 : (createBlobInt16 data).getD i 0 = toInt16 (data.getD i 0) := by
      unfold createBlobInt16
      exact getD_map_of_lt toInt16 data i hi 0 0
    rw [h1, hone]
    unfold toInt16 truncQ
    norm_num
  · decide

/-- Witness for C10: the one-sample buffer holding 1.0 encodes to -32768. -/
theorem C10_fullscale_wraps_witness :
    (createBlobInt16 [(1 : ℚ)]).getD 0 0 = -32768 ∧ ((-32768 : ℤ) ≠ 32767) :=
  C10_fullscale_wraps [1] 0 (by decide) (by decide)

/-- Claim C2: if a chunk arrives in the playing or loading state while the
lookahead clock holds a non-sentinel value strictly less than the output
clock's current time (an underrun), the handler sets the state to `loading`,
resets the clock to `now + bufferTime`, schedules the chunk at that reset
time — never at the stale elapsed timestamp — and advances the clock by the
chunk's duration from the reset value. -/
theorem C2_underrun_rebuffers (st : PlaybackState) (clock now dur : ℚ)
    (hst : st = .playing ∨ st = .loading) (hz : clock ≠ 0) (hu : clock < now) :
    (handleChunk st clock now dur).state = .loading ∧
    (handleChunk st clock now dur).scheduled = some (now + bufferTime) ∧
    (handleChunk st clock now dur).underrun = true ∧
    (handleChunk st clock now dur).clock = now + bufferTime + dur ∧
    (handleChunk st clock now dur).scheduled ≠ some clock := by
  have hps : ¬(st = .paused ∨ st = .stopped) := by
    rcases hst with h | h <;> subst h <;> simp
  simp only [handleChunk, if_neg hps, if_neg hz, if_pos hu]
  refine ⟨by trivial, by trivial, by simp [hu], by trivial, ?_⟩
  intro h
  have h2 : now + bufferTime = clock := by
    exact Option.some_injective ℚ h
  unfold bufferTime at h2
  linarith

/-- Witness for C2: an underrun at clock 1 with the output clock at 3. -/
theorem C2_underrun_rebuffers_witness :
    (handleChunk .playing 1 3 1).state = .loading ∧
    (handleChunk .playing 1 3 1).scheduled = some ((3 : ℚ) + bufferTime) ∧
    (handleChunk .playing 1 3 1).underrun = true ∧
    (handleChunk .playing 1 3 1).clock = (3 : ℚ) + bufferTime + 1 ∧
    (handleChunk .playing 1 3 1).scheduled ≠ some 1 :=
  C2_underrun_rebuffers .playing 1 3 1 (Or.inl rfl) (by norm_num) (by norm_num)

/-- Claim C3: when a chunk arrives in a state that is neither paused nor
stopped while the clock holds its sentinel value 0, the handler sets the
clock to `now + bufferTime`, schedules the chunk there with no underrun, and
arms a timer firing after `bufferTime * 1000` ms whose body turns `loading`
into `playing` and is a no-op in every other state; firing is idempotent, so
the state becomes playing at most once per arming. -/
theorem C3_sentinel_arms_timer (st : PlaybackState) (clock now dur : ℚ)
    (hp : st ≠ .paused) (hs : st ≠ .stopped) (hz : clock = 0) :
    (handleChunk st clock now dur).timer = some (bufferTime * 1000) ∧
    (handleChunk st clock now dur).scheduled = some (now + bufferTime) ∧
    (handleChunk st clock now dur).clock = now + bufferTime + dur ∧
    (handleChunk st clock now dur).underrun = false ∧
    timerFire .loading = .playing ∧
    (∀ s, s ≠ .loading → timerFire s = s) ∧
    (∀ s, timerFire (timerFire s) = timerFire s) := by
  have hps : ¬(st = .paused ∨ st = .stopped) := by tauto
  have hnu : ¬(now + bufferTime < now) := by
    unfold bufferTime
    linarith
  simp only [handleChunk, if_neg hps, if_pos hz, if_neg hnu]
  refine ⟨by trivial, by trivial, by trivial, by simp [hnu], by trivial, ?_, ?_⟩
  · intro s hsl
    unfold timerFire
    simp [hsl]
  · intro s
    cases s <;> rfl

/-- Witness for C3: the first chunk arriving in `loading` at sentinel 0. -/
theorem C3_sentinel_arms_timer_witness :
    (handleChunk .loading 0 1 1).timer = some (bufferTime * 1000) ∧
    (handleChunk .loading 0 1 1).scheduled = some ((1 : ℚ) + bufferTime) ∧
    (handleChunk .loading 0 1 1).clock = (1 : ℚ) + bufferTime + 1 ∧
    (handleChunk .loading 0 1 1).underrun = false ∧
    timerFire .loading = .playing ∧
    (∀ s, s ≠ .loading → timerFire s = s) ∧
    (∀ s, timerFire (timerFire s) = timerFire s) :=
  C3_sentinel_arms_timer .loading 0 1 1 (by decide) (by decide) rfl

theorem startsSpec_chain (chunks : List (ℚ × ℚ)) : ∀ t0 : ℚ,
    (∀ c ∈ chunks, 0 ≤ c.2) → List.Chain' (· ≤ ·) (startsSpec t0 chunks) := by
  induction chunks with
  | nil =>
    intro t0 _
    simp [startsSpec]
  | cons c rest ih =>
    intro t0 hd
    cases rest with
    | nil => simp [startsSpec]
    | cons c2 rest2 =>
      refine List.Chain'.cons ?_ ?_
      · linarith [hd c (List.mem_cons_self c (c2 :: rest2))]
      · exact ih (t0 + c.2) (fun x hx => hd x (List.mem_cons_of_mem c hx))

theorem runChunks_steady (chunks : List (ℚ × ℚ)) : ∀ (st : PlaybackState) (t0 : ℚ),
    (st = .playing ∨ st = .loading) →
    (∀ o ∈ runChunks st t0 chunks, o.underrun = false ∧ o.timer = none) →
    (runChunks st t0 chunks).map ChunkOutcome.scheduled =
      (startsSpec t0 chunks).map some ∧
    finalClock st t0 chunks = t0 + (chunks.map Prod.snd).sum := by
  induction chunks with
  | nil =>
    intro st t0 _ _
    simp [runChunks, finalClock, startsSpec]
  | cons c rest ih =>
    intro st t0 hst hno
    have hps : ¬(st = .paused ∨ st = .stopped) := by
      rcases hst with h | h <;> subst h <;> simp
    have hhead : handleChunk st t0 c.1 c.2 ∈ runChunks st t0 (c :: rest) := by
      rw [runChunks]
      exact List.mem_cons_self _ _
    obtain ⟨hu, htm⟩ := hno _ hhead
    have hz : ¬ t0 = 0 := by
      intro h0
      simp [handleChunk, if_neg hps, h0] at htm
    have hnu : ¬ (t0 < c.1) := by
      intro hlt
      simp [handleChunk, if_neg hps, hz, hlt] at hu
    have hstep : handleChunk st t0 c.1 c.2 =
        ⟨st, t0 + c.2, some t0, none, false⟩ := by
      simp [handleChunk, if_neg hps, hz, hnu]
    have hrun : runChunks st t0 (c :: rest) =
        ChunkOutcome.mk st (t0 + c.2) (some t0) none false ::
          runChunks st (t0 + c.2) rest := by
      rw [runChunks, hstep]
    have hfin : finalClock st t0 (c :: rest) = finalClock st (t0 + c.2) rest := by
      rw [finalClock, hstep]
    have hno' : ∀ o ∈ runChunks st (t0 + c.2) rest,
        o.underrun = false ∧ o.timer = none := by
      intro o ho
      refine hno o ?_
      rw [hrun]
      exact List.mem_cons_of_mem _ ho
    obtain ⟨hm, hf⟩ := ih st (t0 + c.2) hst hno'
    constructor
    · rw [hrun, List.map_cons, hm]
      simp [startsSpec]
    · rw [hfin, hf, List.map_cons, List.sum_cons]
      ring

/-- Claim C1: while the engine is in the playing or loading state, if no
underrun fires and no sentinel re-buffer occurs during a chunk sequence, then
every chunk is scheduled to start exactly at the current lookahead clock value
and the clock advances by that chunk's duration; hence scheduled start times
are non-decreasing and, after N chunks of durations d1..dN, the lookahead
clock equals the initial lookahead plus the sum of the durations. -/
theorem C1_gapless_scheduling (st : PlaybackState) (t0 : ℚ)
    (chunks : List (ℚ × ℚ)) (hst : st = .playing ∨ st = .loading)
    (hd : ∀ c ∈ chunks, 0 ≤ c.2)
    (hno : ∀ o ∈ runChunks st t0 chunks, o.underrun = false ∧ o.timer = none) :
    (runChunks st t0 chunks).map ChunkOutcome.scheduled =
      (startsSpec t0 chunks).map some ∧
    List.Chain' (· ≤ ·) (startsSpec t0 chunks) ∧
    finalClock st t0 chunks = t0 + (chunks.map Prod.snd).sum :=
  ⟨(runChunks_steady chunks st t0 hst hno).1, startsSpec_chain chunks t0 hd,
    (runChunks_steady chunks st t0 hst hno).2⟩

theorem C1_witness_step1 : handleChunk .playing 5 1 2 =
    ⟨.playing, 7, some 5, none, false⟩ := by
  norm_num [handleChunk, bufferTime, decide_eq_false_iff_not]
  decide

theorem C1_witness_step2 : handleChunk .playing 7 3 1 =
    ⟨.playing, 8, some 7, none, false⟩ := by
  norm_num [handleChunk, bufferTime, decide_eq_false_iff_not]
  decide

theorem C1_witness_run : runChunks .playing 5 [((1 : ℚ), (2 : ℚ)), (3, 1)] =
    [⟨.playing, 7, some 5, none, false⟩, ⟨.playing, 8, some 7, none, false⟩] := by
  simp only [runChunks, C1_witness_step1, C1_witness_step2]

/-- Witness for C1: two chunks of durations 2 and 1 from lookahead 5. -/
theorem C1_gapless_scheduling_witness :
    (runChunks .playing 5 [((1 : ℚ), (2 : ℚ)), (3, 1)]).map ChunkOutcome.scheduled =
      (startsSpec 5 [((1 : ℚ), (2 : ℚ)), (3, 1)]).map some ∧
    List.Chain' (· ≤ ·) (startsSpec 5 [((1 : ℚ), (2 : ℚ)), (3, 1)]) ∧
    finalClock .playing 5 [((1 : ℚ), (2 : ℚ)), (3, 1)] =
      5 + ([((1 : ℚ), (2 : ℚ)), (3, 1)].map Prod.snd).sum :=
  C1_gapless_scheduling .playing 5 [(1, 2), (3, 1)] (Or.inl rfl) (by decide)
    (by
      intro o ho
      rw [C1_witness_run] at ho
      rcases List.mem_pair.mp ho with rfl | rfl <;> exact ⟨rfl, rfl⟩)

theorem throttleRun_sublist {α : Type} (delay : ℚ) (evs : List (ℚ × α)) :
    ∀ last : Option ℚ, (throttleRun delay last evs).Sublist evs := by
  induction evs with
  | nil =>
    intro last
    cases last <;> simp [throttleRun]
  | cons e rest ih =>
    intro last
    cases last with
    | none =>
      rw [throttleRun]
      exact (ih (some e.1)).cons₂ e
    | some l =>
      rw [throttleRun]
      by_cases h : delay ≤ e.1 - l
      · rw [if_pos h]
        exact (ih (some e.1)).cons₂ e
      · rw [if_neg h]
        exact (ih (some l)).cons e

theorem throttleRun_spacing {α : Type} (delay : ℚ) (hdelay : 0 ≤ delay)
    (evs : List (ℚ × α)) :
    ∀ l : ℚ,
      List.Chain' (fun a b => a.1 + delay ≤ b.1) (throttleRun delay (some l) evs) ∧
      ∀ e ∈ throttleRun delay (some l) evs, l + delay ≤ e.1 := by
  induction evs with
  | nil =>
    intro l
    simp [throttleRun]
  | cons e rest ih =>
    intro l
    rw [throttleRun]
    by_cases h : delay ≤ e.1 - l
    · rw [if_pos h]
      obtain ⟨hc, hall⟩ := ih e.1
      constructor
      · rw [List.chain'_cons']
        exact ⟨fun b hb => hall b (List.mem_of_mem_head? hb), hc⟩
      · intro f hf
        rcases List.mem_cons.mp hf with rfl | hf'
        · linarith
        · have := hall f hf'
          linarith
    · rw [if_neg h]
      exact ih l

/-- Claim C7 (amended): over any timeline of call events, the throttled
active-prompt push executes at most one push per 200 ms window (consecutive
executed pushes are at least 200 ms apart) and each executed push is one of
the call events carrying the channel state current at its own execution
moment; however, a call arriving within 200 ms of the last executed push is
dropped entirely — there is no trailing re-send, so a final mutation inside
the window is never pushed. -/
theorem C7_throttle_amended {α : Type} (evs : List (ℚ × α)) :
    List.Chain' (fun a b => a.1 + 200 ≤ b.1) (throttleRun 200 none evs) ∧
    (throttleRun 200 none evs).Sublist evs := by
  constructor
  · cases evs with
    | nil => simp [throttleRun]
    | cons e rest =>
      rw [throttleRun, List.chain'_cons']
      obtain ⟨hc, hall⟩ := throttleRun_spacing 200 (by norm_num) rest e.1
      exact ⟨fun b hb => hall b (List.mem_of_mem_head? hb), hc⟩
  · exact throttleRun_sublist 200 evs none

theorem C7_counterexample_run :
    throttleRun 200 none [((0 : ℚ), "A"), ((100 : ℚ), "B")] = [((0 : ℚ), "A")] := by
  rw [throttleRun]
  norm_num [throttleRun]

/-- Claim C7 (counterexample): a push executes at time 0 with state "A"; a
mutation at time 100 (inside the 200 ms window) produces state "B", and no
further calls arrive — the final state "B" is never pushed. -/
theorem C7_counterexample :
    throttleRun 200 none [((0 : ℚ), "A"), ((100 : ℚ), "B")] = [((0 : ℚ), "A")] ∧
    "B" ∉ (throttleRun 200 none [((0 : ℚ), "A"), ((100 : ℚ), "B")]).map Prod.snd := by
  refine ⟨C7_counterexample_run, ?_⟩
  rw [C7_counterexample_run]
  decide

theorem getD_map_range {β : Type} (f : ℕ → β) (n k : ℕ) (h : k < n) (d : β) :
    ((List.range n).map f).getD k d = f k := by
  have h' : k < (List.range n).length := by simpa using h
  rw [getD_map_of_lt f (List.range n) k h' d 0]
  congr 1
  rw [List.getD_eq_getElem (List.range n) 0 h']
  exact List.getElem_range k h'

theorem bytesToFloats_length (data : List ℕ) :
    (bytesToFloats data).length = data.length / 2 := by
  simp [bytesToFloats, bytesToInt16]

theorem channelSamples_length (data : List ℕ) (nc i : ℕ) :
    (channelSamples data nc i).length = data.length / 2 / nc := by
  simp [channelSamples, bytesToFloats_length]

theorem channelSamples_getD (data : List ℕ) (nc i j : ℕ)
    (hj : j < data.length / 2 / nc) :
    (channelSamples data nc i).getD j 0 =
      (bytesToFloats data).getD (j * nc + i) 0 := by
  unfold channelSamples
  rw [bytesToFloats_length]
  exact getD_map_range _ _ j hj 0

theorem bytesToFloats_getD (data : List ℕ) (k : ℕ) (hk : k < data.length / 2) :
    (bytesToFloats data).getD k 0 =
      (int16le (data.getD (2 * k) 0) (data.getD (2 * k + 1) 0) : ℚ) / 32768 := by
  unfold bytesToFloats bytesToInt16
  rw [List.map_map]
  exact getD_map_range _ _ k hk 0

theorem int16le_bounds (lo hi : ℕ) (hlo : lo < 256) (hhi : hi < 256) :
    -32768 ≤ int16le lo hi ∧ int16le lo hi ≤ 32767 := by
  unfold int16le
  split <;> omega

theorem div32768_bounds (v : ℤ) (h1 : -32768 ≤ v) (h2 : v ≤ 32767) :
    -1 ≤ (v : ℚ) / 32768 ∧ (v : ℚ) / 32768 ≤ 1 := by
  have h1' : (-32768 : ℚ) ≤ (v : ℚ) := by exact_mod_cast h1
  have h2' : ((v : ℚ)) ≤ 32767 := by exact_mod_cast h2
  constructor
  · rw [le_div_iff₀ (by norm_num : (0 : ℚ) < 32768)]
    linarith
  · rw [div_le_one (by norm_num : (0 : ℚ) < 32768)]
    linarith

theorem channelSamples_bounds (data : List ℕ) (hb : ∀ b ∈ data, b < 256)
    (nc i : ℕ) : ∀ x ∈ channelSamples data nc i, -1 ≤ x ∧ x ≤ 1 := by
  have hb' : ∀ m, data.getD m 0 < 256 := by
    intro m
    by_cases h : m < data.length
    · rw [List.getD_eq_getElem data 0 h]
      exact hb _ (List.getElem_mem h)
    · rw [List.getD_eq_default data 0 (le_of_not_lt h)]
      norm_num
  intro x hx
  unfold channelSamples at hx
  rw [List.mem_map] at hx
  obtain ⟨j, hj, rfl⟩ := hx
  by_cases h : j * nc + i < (bytesToFloats data).length
  · rw [bytesToFloats_length] at h
    rw [bytesToFloats_getD data _ h]
    obtain ⟨hl, hr⟩ := int16le_bounds _ _ (hb' (2 * (j * nc + i))) (hb' (2 * (j * nc + i) + 1))
    exact div32768_bounds _ hl hr
  · rw [List.getD_eq_default _ 0 (le_of_not_lt h)]
    norm_num

/-- Claim C9: decoding a byte array of interleaved 16-bit signed
little-endian PCM with two channels yields, for channel i and frame j, the
sample `int16[j * 2 + i] / 32768`; every output sample lies in [-1, 1], and
the per-channel frame count equals `byteLength / 2 / 2`. -/
theorem C9_decode_stereo (data : List ℕ) (hb : ∀ b ∈ data, b < 256) :
    (∀ i, i < 2 → (decodeAudioData data 2).getD i [] = channelSamples data 2 i) ∧
    (∀ i, (channelSamples data 2 i).length = data.length / 2 / 2) ∧
    (∀ i, i < 2 → ∀ j, j < data.length / 2 / 2 →
      (channelSamples data 2 i).getD j 0 =
        (int16le (data.getD (2 * (j * 2 + i)) 0) (data.getD (2 * (j * 2 + i) + 1) 0) : ℚ)
          / 32768) ∧
    (∀ i, ∀ x ∈ channelSamples data 2 i, -1 ≤ x ∧ x ≤ 1) := by
  refine ⟨?_, fun i => channelSamples_length data 2 i, ?_,
    fun i => channelSamples_bounds data hb 2 i⟩
  · intro i hi
    unfold decodeAudioData
    exact getD_map_range _ _ i hi []
  · intro i hi j hj
    rw [channelSamples_getD data 2 i j hj, bytesToFloats_getD data _ (by omega)]

/-- Witness for C9: the four-byte stereo buffer [0, 128, 255, 255], one
frame per channel, decoding to -1 on channel 0 and -1/32768 on channel 1. -/
theorem C9_decode_stereo_witness :
    (∀ i, i < 2 →
      (decodeAudioData [0, 128, 255, 255] 2).getD i [] =
        channelSamples [0, 128, 255, 255] 2 i) ∧
    (∀ i, (channelSamples [0, 128, 255, 255] 2 i).length =
      ([0, 128, 255, 255] : List ℕ).length / 2 / 2) ∧
    (∀ i, i < 2 → ∀ j, j < ([0, 128, 255, 255] : List ℕ).length / 2 / 2 →
      (channelSamples [0, 128, 255, 255] 2 i).getD j 0 =
        (int16le (([0, 128, 255, 255] : List ℕ).getD (2 * (j * 2 + i)) 0)
            (([0, 128, 255, 255] : List ℕ).getD (2 * (j * 2 + i) + 1) 0) : ℚ)
          / 32768) ∧
    (∀ i, ∀ x ∈ channelSamples [0, 128, 255, 255] 2 i, -1 ≤ x ∧ x ≤ 1) :=
  C9_decode_stereo [0, 128, 255, 255] (by decide)
